import Mathlib

/-! Verification of the SNV-comparison engine of
`centromere-haplotype-sampling-pipeline` (`compare_snvs.py`).

The embedding below translates the Python source directly:

* `Variant`, `Variant.is_snv`, `Variant.is_same_var` mirror the dataclass
  and its two methods.
* `load_vcf_record` mirrors the per-record body of `load_vcf` (the
  line-level concerns of that function — header skipping, tab splitting and
  integer parsing — are I/O; a `VcfRecord` holds the already-extracted
  fields `parts[1]`, `parts[3]`, `parts[4]`, `parts[6]`).
* `main_loop`, `fp_cleanup`, `fn_cleanup` and `compute_stats` mirror the
  three loops of `compute_stats`; the counter updates and cursor moves are
  translated branch by branch. The cursors of the Python code are modelled
  by consuming list heads, so "advance the call cursor" becomes "recurse on
  the tail of the call list".
* `relaxed_truth_dict` mirrors the dict comprehension
  `{var.ref_pos: var for var in relaxed_truth_set}` (later entries win).
* `compute_ratios` mirrors the ratio computations of the reporting part of
  `compute_stats`; Python division raising `ZeroDivisionError` is modelled
  by `Except`, evaluated in the same order as the Python statements.
-/

/-- A variant call, either from VCF or truth set (dataclass `Variant`).
Positions are Python ints, modelled as `Int` (`load_vcf` can produce
negative positions via its fixed offset). -/
structure Variant where
  ref_pos : Int
  ref_allele : String
  alt_allele : String
  filtered : Bool := false
deriving Repr, DecidableEq

/-- Does this variant represent an SNV? (`Variant.is_snv`) -/
def Variant.is_snv (v : Variant) : Bool :=
  v.ref_allele.length == 1 && v.alt_allele.length == 1

/-- Are these two variants the same (regardless of type)?
(`Variant.is_same_var`) -/
def Variant.is_same_var (v other : Variant) : Bool :=
  v.ref_pos == other.ref_pos &&
  v.ref_allele == other.ref_allele &&
  v.alt_allele == other.alt_allele

/-- Split a character list at every occurrence of `c`; this is the
semantics of Python `str.split(sep)` for a one-character separator
(an empty input yields `[[]]`, adjacent separators yield empty pieces). -/
def split_char (c : Char) : List Char → List (List Char)
  | [] => [[]]
  | x :: xs =>
    if x = c then [] :: split_char c xs
    else
      match split_char c xs with
      | r :: rs => (x :: r) :: rs
      | [] => [[x]]

/-- Python `s.split(c)` for a one-character separator, on `String`. -/
def py_split (s : String) (c : Char) : List String :=
  (split_char c s.data).map String.mk

/-- The fields of one non-header data line of the VCF, as extracted by
`load_vcf`: `pos` is `int(parts[1])` (native 1-based position), `ref_base`
is `parts[3]`, `alt_bases_field` is `parts[4]` (still comma-separated), and
`filter_status` is `parts[6]`. -/
structure VcfRecord where
  pos : Int
  ref_base : String
  alt_bases_field : String
  filter_status : String
deriving Repr, DecidableEq

/-- The per-record body of `load_vcf`: convert to 0-based and drop the
dummy base (`ref_pos = int(parts[1]) - 2`), set `filtered` iff the filter
field is not `"PASS"`, and emit one `Variant` per comma-separated ALT
allele. -/
def load_vcf_record (r : VcfRecord) : List Variant :=
  (py_split r.alt_bases_field ',').map fun alt_base =>
    { ref_pos := r.pos - 2
      ref_allele := r.ref_base
      alt_allele := alt_base
      filtered := r.filter_status != "PASS" }

/-- `load_vcf` over the stream of non-header data records: the per-record
variants, appended in record order. -/
def load_vcf (records : List VcfRecord) : List Variant :=
  records.flatMap load_vcf_record

/-- The six counters tracked by `compute_stats`, in declaration order. -/
structure Counters where
  tp : Nat
  fp : Nat
  fn : Nat
  fp_filtered : Nat
  fn_filtered : Nat
  fn_in_sv : Nat
deriving Repr, DecidableEq

/-- All counters start at zero. -/
def Counters.init : Counters := ⟨0, 0, 0, 0, 0, 0⟩

/-- The lookup built by `{var.ref_pos: var for var in relaxed_truth_set}`:
position-keyed; as in a Python dict comprehension, a later variant at the
same position overwrites an earlier one. -/
def relaxed_truth_dict (relaxed_truth_set : List Variant) (pos : Int) :
    Option Variant :=
  relaxed_truth_set.foldl (fun acc v => if v.ref_pos = pos then some v else acc) none

/-- The main `while call_idx < len(call_set) and truth_idx < len(truth_set)`
loop of `compute_stats`. Returns the remaining call list, the remaining
truth list and the counters at loop exit. -/
def main_loop (rel : List Variant) :
    List Variant → List Variant → Counters →
    List Variant × List Variant × Counters
  | call :: calls, truth :: truths, c =>
    if !call.is_snv then
      -- Not an SNV, so this doesn't count as a call; it may explain FNs
      let call_end : Int := call.ref_pos + (call.ref_allele.length : Int) - 1
      if truth.ref_pos < call.ref_pos then
        -- Any truth variants before this call are plain FNs
        main_loop rel (call :: calls) truths { c with fn := c.fn + 1 }
      else if truth.ref_pos ≤ call_end then
        -- Any truth variants covered by this call are FNs in SV
        main_loop rel (call :: calls) truths
          { c with fn_in_sv := c.fn_in_sv + 1, fn := c.fn + 1 }
      else
        -- Move to next call
        main_loop rel calls (truth :: truths) c
    else
      -- This is an SNV call
      if call.ref_pos < truth.ref_pos then
        -- Call not in truth set, a FP; check for near-miss in relaxed set
        let c1 :=
          match relaxed_truth_dict rel call.ref_pos with
          | some v =>
            if v.is_same_var call then { c with fp_filtered := c.fp_filtered + 1 } else c
          | none => c
        main_loop rel calls (truth :: truths) { c1 with fp := c1.fp + 1 }
      else if call.ref_pos > truth.ref_pos then
        -- Truth variant not in calls
        main_loop rel (call :: calls) truths { c with fn := c.fn + 1 }
      else
        if truth.is_same_var call then
          -- Match found; either TP or FN if filtered
          if call.filtered then
            main_loop rel calls truths { c with fn_filtered := c.fn_filtered + 1 }
          else
            main_loop rel calls truths { c with tp := c.tp + 1 }
        else
          -- Positions match but alleles don't; count as FN + FP
          main_loop rel calls truths { c with fn := c.fn + 1, fp := c.fp + 1 }
  | calls, truths, c => (calls, truths, c)
  termination_by calls truths _ => calls.length + truths.length

/-- The `while call_idx < len(call_set)` cleanup loop: any remaining calls
are FPs (non-SNV leftovers are skipped). -/
def fp_cleanup (rel : List Variant) : List Variant → Counters → Counters
  | [], c => c
  | call :: calls, c =>
    if call.is_snv then
      let c1 :=
        match relaxed_truth_dict rel call.ref_pos with
        | some v =>
          if v.is_same_var call then { c with fp_filtered := c.fp_filtered + 1 } else c
        | none => c
      fp_cleanup rel calls { c1 with fp := c1.fp + 1 }
    else
      fp_cleanup rel calls c

/-- The `while truth_idx < len(truth_set)` cleanup loop: any remaining
truth variants are FNs. -/
def fn_cleanup : List Variant → Counters → Counters
  | [], c => c
  | _ :: truths, c => fn_cleanup truths { c with fn := c.fn + 1 }

/-- The counter-computing part of `compute_stats`: the main loop followed
by the two cleanup loops, starting from all-zero counters. -/
def compute_stats (call_set truth_set relaxed_truth_set : List Variant) :
    Counters :=
  let r := main_loop relaxed_truth_set call_set truth_set Counters.init
  fn_cleanup r.2.1 (fp_cleanup relaxed_truth_set r.1 r.2.2)

/-- Python's `a / b` on ints: `ZeroDivisionError` (modelled as `.error`)
when the denominator is zero, the exact rational quotient otherwise. -/
def py_div (num den : Int) : Except Unit ℚ :=
  if den = 0 then .error () else .ok ((num : ℚ) / (den : ℚ))

/-- The ratio computations of the reporting part of `compute_stats`,
evaluated in the order of the Python statements:
`precision = tp / (tp + fp)`, `recall = tp / (tp + fn)`,
`recall_no_sv = tp / (tp + fn - fn_in_sv)`. A `ZeroDivisionError`
in any of them aborts the computation. -/
def compute_ratios (c : Counters) : Except Unit (ℚ × ℚ × ℚ) :=
  match py_div c.tp ((c.tp : Int) + c.fp) with
  | .error e => .error e
  | .ok q1 =>
    match py_div c.tp ((c.tp : Int) + c.fn) with
    | .error e => .error e
    | .ok q2 =>
      match py_div c.tp ((c.tp : Int) + c.fn - c.fn_in_sv) with
      | .error e => .error e
      | .ok q3 => .ok (q1, q2, q3)

/-- A variant always equals itself under `is_same_var`. -/
theorem Variant.is_same_var_self (v : Variant) : v.is_same_var v = true := by
  simp [Variant.is_same_var]

/-- The main loop only ever increments `fn_in_sv` together with `fn`: it
preserves the invariant `fn_in_sv ≤ fn`. -/
theorem main_loop_fn_in_sv_le (rel : List Variant) (cs ts : List Variant)
    (c : Counters) :
    c.fn_in_sv ≤ c.fn →
      (main_loop rel cs ts c).2.2.fn_in_sv ≤ (main_loop rel cs ts c).2.2.fn := by
  induction cs, ts, c using main_loop.induct rel with
  | case1 call calls truth truths c h1 h2 ih =>
    intro h
    simp only [main_loop]
    rw [if_pos h1, if_pos h2]
    exact ih (by simp; omega)
  | case2 call calls truth truths c h1 ce hnl hle ih =>
    intro h
    simp only [main_loop]
    have hce : truth.ref_pos ≤ call.ref_pos + (call.ref_allele.length : Int) - 1 := hle
    rw [if_pos h1, if_neg hnl, if_pos hce]
    exact ih (by simp; omega)
  | case3 call calls truth truths c h1 ce hnl hnle ih =>
    intro h
    simp only [main_loop]
    have hce : ¬ truth.ref_pos ≤ call.ref_pos + (call.ref_allele.length : Int) - 1 := hnle
    rw [if_pos h1, if_neg hnl, if_neg hce]
    exact ih h
  | case4 call calls truth truths c h1 h2 c1 ih =>
    intro h
    simp only [main_loop]
    rw [if_neg h1, if_pos h2]
    refine ih ?_
    unfold c1
    cases hm : relaxed_truth_dict rel call.ref_pos
    · simpa [hm] using h
    · rename_i v
      by_cases hv : v.is_same_var call <;> simpa [hm, hv] using h
  | case5 call calls truth truths c h1 h2 h3 ih =>
    intro h
    simp only [main_loop]
    rw [if_neg h1, if_neg h2, if_pos h3]
    exact ih (by simp; omega)
  | case6 call calls truth truths c h1 h2 h3 h4 h5 ih =>
    intro h
    simp only [main_loop]
    rw [if_neg h1, if_neg h2, if_neg h3, if_pos h4, if_pos h5]
    exact ih h
  | case7 call calls truth truths c h1 h2 h3 h4 h5 ih =>
    intro h
    simp only [main_loop]
    rw [if_neg h1, if_neg h2, if_neg h3, if_pos h4, if_neg h5]
    exact ih h
  | case8 call calls truth truths c h1 h2 h3 h4 ih =>
    intro h
    simp only [main_loop]
    rw [if_neg h1, if_neg h2, if_neg h3, if_neg h4]
    exact ih (by simp; omega)
  | case9 calls truths c h =>
    intro hh
    simp only [main_loop]
    exact hh

/-- The FP cleanup loop never changes `tp`. -/
theorem fp_cleanup_tp (rel : List Variant) (cs : List Variant) (c : Counters) :
    (fp_cleanup rel cs c).tp = c.tp := by
  induction cs generalizing c with
  | nil => rfl
  | cons call calls ih =>
    simp only [fp_cleanup]
    rcases hm : relaxed_truth_dict rel call.ref_pos with _ | v
    · by_cases hs : call.is_snv <;> simp [hs, hm, ih]
    · by_cases hs : call.is_snv <;> by_cases hv : v.is_same_var call <;>
        simp [hs, hm, hv, ih]

/-- The FP cleanup loop never changes `fn`. -/
theorem fp_cleanup_fn (rel : List Variant) (cs : List Variant) (c : Counters) :
    (fp_cleanup rel cs c).fn = c.fn := by
  induction cs generalizing c with
  | nil => rfl
  | cons call calls ih =>
    simp only [fp_cleanup]
    rcases hm : relaxed_truth_dict rel call.ref_pos with _ | v
    · by_cases hs : call.is_snv <;> simp [hs, hm, ih]
    · by_cases hs : call.is_snv <;> by_cases hv : v.is_same_var call <;>
        simp [hs, hm, hv, ih]

/-- The FP cleanup loop never changes `fn_in_sv`. -/
theorem fp_cleanup_fn_in_sv (rel : List Variant) (cs : List Variant) (c : Counters) :
    (fp_cleanup rel cs c).fn_in_sv = c.fn_in_sv := by
  induction cs generalizing c with
  | nil => rfl
  | cons call calls ih =>
    simp only [fp_cleanup]
    rcases hm : relaxed_truth_dict rel call.ref_pos with _ | v
    · by_cases hs : call.is_snv <;> simp [hs, hm, ih]
    · by_cases hs : call.is_snv <;> by_cases hv : v.is_same_var call <;>
        simp [hs, hm, hv, ih]

/-- The FP cleanup loop adds the number of SNVs among the remaining calls
to `fp`: every remaining SNV call, and only those, counts as one FP. -/
theorem fp_cleanup_fp (rel : List Variant) (cs : List Variant) (c : Counters) :
    (fp_cleanup rel cs c).fp = c.fp + cs.countP (fun v => v.is_snv) := by
  induction cs generalizing c with
  | nil => simp [fp_cleanup]
  | cons call calls ih =>
    simp only [fp_cleanup]
    rcases hm : relaxed_truth_dict rel call.ref_pos with _ | v
    · by_cases hs : call.is_snv <;> simp [hs, hm, ih, List.countP_cons] <;> omega
    · by_cases hs : call.is_snv <;> by_cases hv : v.is_same_var call <;>
        simp [hs, hm, hv, ih, List.countP_cons] <;> omega

/-- The FN cleanup loop never changes `tp`. -/
theorem fn_cleanup_tp (ts : List Variant) (c : Counters) :
    (fn_cleanup ts c).tp = c.tp := by
  induction ts generalizing c with
  | nil => rfl
  | cons t ts ih => simp [fn_cleanup, ih]

/-- The FN cleanup loop never changes `fp`. -/
theorem fn_cleanup_fp (ts : List Variant) (c : Counters) :
    (fn_cleanup ts c).fp = c.fp := by
  induction ts generalizing c with
  | nil => rfl
  | cons t ts ih => simp [fn_cleanup, ih]

/-- The FN cleanup loop never changes `fn_in_sv`. -/
theorem fn_cleanup_fn_in_sv (ts : List Variant) (c : Counters) :
    (fn_cleanup ts c).fn_in_sv = c.fn_in_sv := by
  induction ts generalizing c with
  | nil => rfl
  | cons t ts ih => simp [fn_cleanup, ih]

/-- The FN cleanup loop adds one to `fn` per remaining truth variant. -/
theorem fn_cleanup_fn (ts : List Variant) (c : Counters) :
    (fn_cleanup ts c).fn = c.fn + ts.length := by
  induction ts generalizing c with
  | nil => simp [fn_cleanup]
  | cons t ts ih => simp [fn_cleanup, ih]; omega

theorem main_loop_disjoint (rel : List Variant) (cs ts : List Variant) (c : Counters) :
    (∀ x ∈ cs, ∀ t ∈ ts, x.ref_pos ≠ t.ref_pos) →
    (main_loop rel cs ts c).2.2.tp = c.tp ∧
    (main_loop rel cs ts c).2.2.fp + ((main_loop rel cs ts c).1.countP (fun v => v.is_snv)) =
      c.fp + cs.countP (fun v => v.is_snv) ∧
    (main_loop rel cs ts c).2.2.fn + (main_loop rel cs ts c).2.1.length = c.fn + ts.length := by
  induction cs, ts, c using main_loop.induct rel with
  | case1 call calls truth truths c h1 h2 ih =>
    intro h
    simp only [main_loop]
    rw [if_pos h1, if_pos h2]
    obtain ⟨e1, e2, e3⟩ := ih (fun x hx t ht => h x hx t (List.mem_cons_of_mem _ ht))
    refine ⟨e1, e2, ?_⟩
    simp only [List.length_cons]
    simp at e3
    omega
  | case2 call calls truth truths c h1 ce hnl hle ih =>
    intro h
    simp only [main_loop]
    have hce : truth.ref_pos ≤ call.ref_pos + (call.ref_allele.length : Int) - 1 := hle
    rw [if_pos h1, if_neg hnl, if_pos hce]
    obtain ⟨e1, e2, e3⟩ := ih (fun x hx t ht => h x hx t (List.mem_cons_of_mem _ ht))
    refine ⟨e1, e2, ?_⟩
    simp only [List.length_cons]
    simp at e3
    omega
  | case3 call calls truth truths c h1 ce hnl hnle ih =>
    intro h
    simp only [main_loop]
    have hce : ¬ truth.ref_pos ≤ call.ref_pos + (call.ref_allele.length : Int) - 1 := hnle
    rw [if_pos h1, if_neg hnl, if_neg hce]
    obtain ⟨e1, e2, e3⟩ := ih (fun x hx t ht => h x (List.mem_cons_of_mem _ hx) t ht)
    have hs : call.is_snv = false := by simpa using h1
    refine ⟨e1, ?_, e3⟩
    simp only [List.countP_cons, hs]
    simp at e2 ⊢
    omega
  | case4 call calls truth truths c h1 h2 c1 ih =>
    intro h
    simp only [main_loop]
    rw [if_neg h1, if_pos h2]
    obtain ⟨e1, e2, e3⟩ := ih (fun x hx t ht => h x (List.mem_cons_of_mem _ hx) t ht)
    have hs : call.is_snv = true := by simpa using h1
    have hc1 : c1.tp = c.tp ∧ c1.fp = c.fp ∧ c1.fn = c.fn := by
      unfold c1
      rcases hm : relaxed_truth_dict rel call.ref_pos with _ | v
      · simp [hm]
      · by_cases hv : v.is_same_var call <;> simp [hm, hv]
    obtain ⟨p1, p2, p3⟩ := hc1
    have hcnt : (call :: calls).countP (fun v => v.is_snv) =
        calls.countP (fun v => v.is_snv) + 1 := by simp [List.countP_cons, hs]
    refine ⟨?_, ?_, ?_⟩
    · show (main_loop rel calls (truth :: truths) { c1 with fp := c1.fp + 1 }).2.2.tp = c.tp
      rw [e1]
      simpa using p1
    · show (main_loop rel calls (truth :: truths) { c1 with fp := c1.fp + 1 }).2.2.fp +
          (main_loop rel calls (truth :: truths)
            { c1 with fp := c1.fp + 1 }).1.countP (fun v => v.is_snv) =
          c.fp + (call :: calls).countP (fun v => v.is_snv)
      rw [e2, hcnt]
      simp
      omega
    · show (main_loop rel calls (truth :: truths) { c1 with fp := c1.fp + 1 }).2.2.fn +
          (main_loop rel calls (truth :: truths) { c1 with fp := c1.fp + 1 }).2.1.length =
          c.fn + (truth :: truths).length
      rw [e3]
      simp
      omega
  | case5 call calls truth truths c h1 h2 h3 ih =>
    intro h
    simp only [main_loop]
    rw [if_neg h1, if_neg h2, if_pos h3]
    obtain ⟨e1, e2, e3⟩ := ih (fun x hx t ht => h x hx t (List.mem_cons_of_mem _ ht))
    refine ⟨e1, e2, ?_⟩
    simp only [List.length_cons]
    simp at e3
    omega
  | case6 call calls truth truths c h1 h2 h3 h4 h5 ih =>
    intro h
    exact absurd (by omega : call.ref_pos = truth.ref_pos)
      (h call (by simp) truth (by simp))
  | case7 call calls truth truths c h1 h2 h3 h4 h5 ih =>
    intro h
    exact absurd (by omega : call.ref_pos = truth.ref_pos)
      (h call (by simp) truth (by simp))
  | case8 call calls truth truths c h1 h2 h3 h4 ih =>
    intro h
    exact absurd (by omega : call.ref_pos = truth.ref_pos)
      (h call (by simp) truth (by simp))
  | case9 calls truths c hcond =>
    intro h
    simp [main_loop]

/-- On two identical lists of unfiltered SNVs, the main loop takes the TP
branch at every step and consumes both lists entirely. -/
theorem main_loop_identical (rel : List Variant) (l : List Variant) (c : Counters)
    (hall : ∀ v ∈ l, v.is_snv = true ∧ v.filtered = false) :
    main_loop rel l l c = ([], [], { c with tp := c.tp + l.length }) := by
  induction l generalizing c with
  | nil => simp [main_loop]
  | cons x l ih =>
    obtain ⟨hs, hf⟩ := hall x (by simp)
    have h1 : ¬ ((!x.is_snv) = true) := by simp [hs]
    have step : main_loop rel (x :: l) (x :: l) c =
        main_loop rel l l { c with tp := c.tp + 1 } := by
      simp only [main_loop]
      rw [if_neg h1, if_neg (lt_irrefl _), if_neg (lt_irrefl _),
        if_pos (Variant.is_same_var_self x), if_neg (by simp [hf])]
    rw [step, ih _ (fun v hv => hall v (by simp [hv]))]
    simp [List.length_cons]
    omega

/-- C1: whenever the counters produced by the comparator satisfy
`tp + fp == 0`, `tp + fn == 0` or `tp + fn - fn_in_sv == 0`, the ratio
computation of the reporter raises a fatal division-by-zero error
(modelled as `.error`) instead of returning values. -/
theorem spec_C1 (call_set truth_set relaxed_truth_set : List Variant)
    (h : (compute_stats call_set truth_set relaxed_truth_set).tp +
           (compute_stats call_set truth_set relaxed_truth_set).fp = 0 ∨
         (compute_stats call_set truth_set relaxed_truth_set).tp +
           (compute_stats call_set truth_set relaxed_truth_set).fn = 0 ∨
         ((compute_stats call_set truth_set relaxed_truth_set).tp : Int) +
           (compute_stats call_set truth_set relaxed_truth_set).fn -
           (compute_stats call_set truth_set relaxed_truth_set).fn_in_sv = 0) :
    compute_ratios (compute_stats call_set truth_set relaxed_truth_set) =
      .error () := by
  set c := compute_stats call_set truth_set relaxed_truth_set with hc
  rcases h with h | h | h
  · have h0 : ((c.tp : Int) + c.fp) = 0 := by omega
    simp [compute_ratios, py_div, h0]
  · have h0 : ((c.tp : Int) + c.fn) = 0 := by omega
    by_cases h1 : ((c.tp : Int) + c.fp) = 0 <;>
      simp [compute_ratios, py_div, h0, h1]
  · by_cases h1 : ((c.tp : Int) + c.fp) = 0
    · simp [compute_ratios, py_div, h1]
    · by_cases h2 : ((c.tp : Int) + c.fn) = 0 <;>
        simp [compute_ratios, py_div, h, h1, h2]

/-- Witness for C1: on empty inputs all counters are zero, every
denominator is zero and the reporter fails. -/
theorem spec_C1_witness :
    ((compute_stats [] [] []).tp + (compute_stats [] [] []).fp = 0 ∨
     (compute_stats [] [] []).tp + (compute_stats [] [] []).fn = 0 ∨
     ((compute_stats [] [] []).tp : Int) + (compute_stats [] [] []).fn -
       (compute_stats [] [] []).fn_in_sv = 0) ∧
    compute_ratios (compute_stats [] [] []) = .error () := by
  have hz : compute_stats [] [] [] = Counters.init := by
    simp [compute_stats, main_loop, fp_cleanup, fn_cleanup]
  exact ⟨Or.inl (by rw [hz]; decide), spec_C1 [] [] [] (Or.inl (by rw [hz]; decide))⟩

/-- C2: when the current SNV call and the current truth variant are at the
same position and are the same variant, and the call is filtered, the loop
adds 1 to `fn_filtered` only (neither `tp` nor the general `fn` moves) and
advances both cursors. -/
theorem spec_C2 (rel calls truths : List Variant) (call truth : Variant)
    (c : Counters)
    (hsnv : call.is_snv = true)
    (hpos : call.ref_pos = truth.ref_pos)
    (hsame : truth.is_same_var call = true)
    (hfil : call.filtered = true) :
    main_loop rel (call :: calls) (truth :: truths) c =
      main_loop rel calls truths { c with fn_filtered := c.fn_filtered + 1 } := by
  simp only [main_loop]
  have h1 : ¬ ((!call.is_snv) = true) := by simp [hsnv]
  have h2 : ¬ (call.ref_pos < truth.ref_pos) := by omega
  have h3 : ¬ (call.ref_pos > truth.ref_pos) := by omega
  rw [if_neg h1, if_neg h2, if_neg h3, if_pos hsame, if_pos hfil]

/-- Witness for C2: a filtered exact match at position 100. -/
theorem spec_C2_witness :
    (Variant.mk 100 "A" "G" true).is_snv = true ∧
    (Variant.mk 100 "A" "G" true).ref_pos = (Variant.mk 100 "A" "G" false).ref_pos ∧
    (Variant.mk 100 "A" "G" false).is_same_var (Variant.mk 100 "A" "G" true) = true ∧
    (Variant.mk 100 "A" "G" true).filtered = true ∧
    main_loop [] [Variant.mk 100 "A" "G" true] [Variant.mk 100 "A" "G" false]
        Counters.init =
      main_loop [] [] []
        { Counters.init with fn_filtered := Counters.init.fn_filtered + 1 } :=
  ⟨by decide, rfl, by decide, rfl,
   spec_C2 [] [] [] _ _ Counters.init (by decide) rfl (by decide) rfl⟩

/-- C3, counterexample: on truth `[(100,"A","G")]` and the filtered call
`[(100,"A","G")]` the code does NOT produce `fn = 1`: the filtered match
adds only to `fn_filtered`, so `fn = 0`. -/
theorem spec_C3_cex :
    ¬ ((compute_stats [Variant.mk 100 "A" "G" true]
          [Variant.mk 100 "A" "G" false] []).tp = 0 ∧
       (compute_stats [Variant.mk 100 "A" "G" true]
          [Variant.mk 100 "A" "G" false] []).fn = 1 ∧
       (compute_stats [Variant.mk 100 "A" "G" true]
          [Variant.mk 100 "A" "G" false] []).fn_filtered = 1 ∧
       (compute_stats [Variant.mk 100 "A" "G" true]
          [Variant.mk 100 "A" "G" false] []).fp = 0) := by
  have h : compute_stats [Variant.mk 100 "A" "G" true]
      [Variant.mk 100 "A" "G" false] [] = { Counters.init with fn_filtered := 1 } := by
    simp +decide [compute_stats, main_loop, fp_cleanup, fn_cleanup, Counters.init,
      Variant.is_snv, Variant.is_same_var]
  rw [h]
  decide

/-- C3, amended: that input yields `tp = 0`, `fp = 0`, `fn = 0` with
`fn_filtered = 1`, and the reporter then fails with a division-by-zero
error (already at the precision ratio, whose denominator `tp + fp` is 0)
instead of printing `recall = 0.0`. -/
theorem spec_C3 :
    (compute_stats [Variant.mk 100 "A" "G" true]
       [Variant.mk 100 "A" "G" false] []).tp = 0 ∧
    (compute_stats [Variant.mk 100 "A" "G" true]
       [Variant.mk 100 "A" "G" false] []).fp = 0 ∧
    (compute_stats [Variant.mk 100 "A" "G" true]
       [Variant.mk 100 "A" "G" false] []).fn = 0 ∧
    (compute_stats [Variant.mk 100 "A" "G" true]
       [Variant.mk 100 "A" "G" false] []).fn_filtered = 1 ∧
    compute_ratios (compute_stats [Variant.mk 100 "A" "G" true]
       [Variant.mk 100 "A" "G" false] []) = .error () := by
  have h : compute_stats [Variant.mk 100 "A" "G" true]
      [Variant.mk 100 "A" "G" false] [] = { Counters.init with fn_filtered := 1 } := by
    simp +decide [compute_stats, main_loop, fp_cleanup, fn_cleanup, Counters.init,
      Variant.is_snv, Variant.is_same_var]
  rw [h]
  refine ⟨rfl, rfl, rfl, rfl, rfl⟩

/-- C4: when the current call is not an SNV and the current truth position
lies in the call's reference span, the loop adds 1 to both `fn` and
`fn_in_sv`, advances only the truth cursor, and leaves `tp` and `fp`
untouched. -/
theorem spec_C4 (rel calls truths : List Variant) (call truth : Variant)
    (c : Counters)
    (hsv : call.is_snv = false)
    (hlo : call.ref_pos ≤ truth.ref_pos)
    (hhi : truth.ref_pos ≤ call.ref_pos + (call.ref_allele.length : Int) - 1) :
    main_loop rel (call :: calls) (truth :: truths) c =
      main_loop rel (call :: calls) truths
        { c with fn_in_sv := c.fn_in_sv + 1, fn := c.fn + 1 } := by
  simp only [main_loop]
  have h1 : (!call.is_snv) = true := by simp [hsv]
  have h2 : ¬ (truth.ref_pos < call.ref_pos) := by omega
  rw [if_pos h1, if_neg h2, if_pos hhi]

/-- Witness for C4: the 15-base deletion call at 190 covering the truth
SNV at 200 (the spec's own scenario). -/
theorem spec_C4_witness :
    (Variant.mk 190 "AAAAAAAAAAAAAAA" "A" false).is_snv = false ∧
    (Variant.mk 190 "AAAAAAAAAAAAAAA" "A" false).ref_pos ≤
      (Variant.mk 200 "C" "T" false).ref_pos ∧
    (Variant.mk 200 "C" "T" false).ref_pos ≤
      (Variant.mk 190 "AAAAAAAAAAAAAAA" "A" false).ref_pos +
        ((Variant.mk 190 "AAAAAAAAAAAAAAA" "A" false).ref_allele.length : Int) - 1 ∧
    main_loop [] [Variant.mk 190 "AAAAAAAAAAAAAAA" "A" false]
        [Variant.mk 200 "C" "T" false] Counters.init =
      main_loop [] [Variant.mk 190 "AAAAAAAAAAAAAAA" "A" false] []
        { Counters.init with
          fn_in_sv := Counters.init.fn_in_sv + 1
          fn := Counters.init.fn + 1 } :=
  ⟨by decide, by decide, by decide,
   spec_C4 [] [] [] _ _ Counters.init (by decide) (by decide) (by decide)⟩

/-- C5: an SNV call classified as a false positive — in the main loop
(position before the current truth) or in the post-loop cleanup — always
adds 1 to `fp`, and adds 1 to `fp_filtered` exactly when the relaxed
lookup at its position holds a variant that `is_same_var` the call. -/
theorem spec_C5 (rel calls truths : List Variant) (call truth : Variant)
    (c : Counters) :
    (call.is_snv = true → call.ref_pos < truth.ref_pos →
      main_loop rel (call :: calls) (truth :: truths) c =
        main_loop rel calls (truth :: truths)
          { c with
            fp := c.fp + 1
            fp_filtered := c.fp_filtered +
              (match relaxed_truth_dict rel call.ref_pos with
               | some v => if v.is_same_var call then 1 else 0
               | none => 0) }) ∧
    (call.is_snv = true →
      fp_cleanup rel (call :: calls) c =
        fp_cleanup rel calls
          { c with
            fp := c.fp + 1
            fp_filtered := c.fp_filtered +
              (match relaxed_truth_dict rel call.ref_pos with
               | some v => if v.is_same_var call then 1 else 0
               | none => 0) }) := by
  constructor
  · intro hsnv hlt
    simp only [main_loop]
    have h1 : ¬ ((!call.is_snv) = true) := by simp [hsnv]
    rw [if_neg h1, if_pos hlt]
    rcases hm : relaxed_truth_dict rel call.ref_pos with _ | v
    · simp [hm]
    · by_cases hv : v.is_same_var call <;> simp [hm, hv]
  · intro hsnv
    simp only [fp_cleanup]
    rw [if_pos hsnv]
    rcases hm : relaxed_truth_dict rel call.ref_pos with _ | v
    · simp [hm]
    · by_cases hv : v.is_same_var call <;> simp [hm, hv]

/-- Witness for C5: a call at 50 before the truth at 60, with an exact
match at 50 in the relaxed set, so `fp_filtered` goes up together with
`fp`, in the main loop and in the cleanup loop. -/
theorem spec_C5_witness :
    (Variant.mk 50 "A" "T" false).is_snv = true ∧
    (Variant.mk 50 "A" "T" false).ref_pos < (Variant.mk 60 "C" "G" false).ref_pos ∧
    main_loop [Variant.mk 50 "A" "T" false] [Variant.mk 50 "A" "T" false]
        [Variant.mk 60 "C" "G" false] Counters.init =
      main_loop [Variant.mk 50 "A" "T" false] [] [Variant.mk 60 "C" "G" false]
        { Counters.init with
          fp := Counters.init.fp + 1
          fp_filtered := Counters.init.fp_filtered + 1 } ∧
    fp_cleanup [Variant.mk 50 "A" "T" false] [Variant.mk 50 "A" "T" false]
        Counters.init =
      fp_cleanup [Variant.mk 50 "A" "T" false] []
        { Counters.init with
          fp := Counters.init.fp + 1
          fp_filtered := Counters.init.fp_filtered + 1 } :=
  ⟨by decide, by decide,
   (spec_C5 [Variant.mk 50 "A" "T" false] [] []
      (Variant.mk 50 "A" "T" false) (Variant.mk 60 "C" "G" false)
      Counters.init).1 (by decide) (by decide),
   (spec_C5 [Variant.mk 50 "A" "T" false] [] []
      (Variant.mk 50 "A" "T" false) (Variant.mk 60 "C" "G" false)
      Counters.init).2 (by decide)⟩

/-- C10: when an SNV call and the current truth variant share a position
but differ in alleles, the loop adds 1 to `fn` and 1 to `fp`, advances
both cursors, and never probes the relaxed lookup: `fp_filtered` is
unchanged for every relaxed set, even one holding an exact match of the
call at that position. -/
theorem spec_C10 (rel calls truths : List Variant) (call truth : Variant)
    (c : Counters)
    (hsnv : call.is_snv = true)
    (hpos : call.ref_pos = truth.ref_pos)
    (hdiff : truth.is_same_var call = false) :
    main_loop rel (call :: calls) (truth :: truths) c =
      main_loop rel calls truths { c with fn := c.fn + 1, fp := c.fp + 1 } := by
  simp only [main_loop]
  have h1 : ¬ ((!call.is_snv) = true) := by simp [hsnv]
  have h2 : ¬ (call.ref_pos < truth.ref_pos) := by omega
  have h3 : ¬ (call.ref_pos > truth.ref_pos) := by omega
  rw [if_neg h1, if_neg h2, if_neg h3, if_neg (by simp [hdiff])]

/-- Witness for C10: alleles differ at position 100 while the relaxed set
holds an exact match of the call there; `fp_filtered` still stays put. -/
theorem spec_C10_witness :
    (Variant.mk 100 "A" "G" false).is_snv = true ∧
    (Variant.mk 100 "A" "G" false).ref_pos = (Variant.mk 100 "A" "C" false).ref_pos ∧
    (Variant.mk 100 "A" "C" false).is_same_var (Variant.mk 100 "A" "G" false) = false ∧
    relaxed_truth_dict [Variant.mk 100 "A" "G" false]
        (Variant.mk 100 "A" "G" false).ref_pos = some (Variant.mk 100 "A" "G" false) ∧
    main_loop [Variant.mk 100 "A" "G" false] [Variant.mk 100 "A" "G" false]
        [Variant.mk 100 "A" "C" false] Counters.init =
      main_loop [Variant.mk 100 "A" "G" false] [] []
        { Counters.init with fn := Counters.init.fn + 1, fp := Counters.init.fp + 1 } :=
  ⟨by decide, rfl, by decide, by decide,
   spec_C10 [Variant.mk 100 "A" "G" false] [] [] _ _ Counters.init
     (by decide) rfl (by decide)⟩

/-- C6: on position-sorted call and truth lists with disjoint position
sets, the comparator yields `tp = 0`, `fp` = number of SNV calls and
`fn` = number of truth variants. -/
theorem spec_C6 (call_set truth_set relaxed_truth_set : List Variant)
    (hsc : call_set.Pairwise (fun a b => a.ref_pos ≤ b.ref_pos))
    (hst : truth_set.Pairwise (fun a b => a.ref_pos ≤ b.ref_pos))
    (hdisj : ∀ x ∈ call_set, ∀ t ∈ truth_set, x.ref_pos ≠ t.ref_pos) :
    (compute_stats call_set truth_set relaxed_truth_set).tp = 0 ∧
    (compute_stats call_set truth_set relaxed_truth_set).fp =
      call_set.countP (fun v => v.is_snv) ∧
    (compute_stats call_set truth_set relaxed_truth_set).fn =
      truth_set.length := by
  obtain ⟨e1, e2, e3⟩ :=
    main_loop_disjoint relaxed_truth_set call_set truth_set Counters.init hdisj
  simp only [compute_stats]
  refine ⟨?_, ?_, ?_⟩
  · rw [fn_cleanup_tp, fp_cleanup_tp]
    simpa [Counters.init] using e1
  · rw [fn_cleanup_fp, fp_cleanup_fp, e2]
    simp [Counters.init]
  · rw [fn_cleanup_fn, fp_cleanup_fn, e3]
    simp [Counters.init]

/-- Witness for C6: one call at 1, one truth at 5. -/
theorem spec_C6_witness :
    (compute_stats [Variant.mk 1 "A" "G" false] [Variant.mk 5 "C" "T" false]
       []).tp = 0 ∧
    (compute_stats [Variant.mk 1 "A" "G" false] [Variant.mk 5 "C" "T" false]
       []).fp = [Variant.mk 1 "A" "G" false].countP (fun v => v.is_snv) ∧
    (compute_stats [Variant.mk 1 "A" "G" false] [Variant.mk 5 "C" "T" false]
       []).fn = [Variant.mk 5 "C" "T" false].length :=
  spec_C6 [Variant.mk 1 "A" "G" false] [Variant.mk 5 "C" "T" false] []
    (by simp) (by simp) (by decide)

/-- C7: on identical, strictly-position-sorted, all-SNV, all-unfiltered
call and truth lists, the comparator yields `tp` = list length and
`fp = fn = 0`. -/
theorem spec_C7 (l relaxed_truth_set : List Variant)
    (hsort : l.Pairwise (fun a b => a.ref_pos < b.ref_pos))
    (hall : ∀ v ∈ l, v.is_snv = true ∧ v.filtered = false) :
    (compute_stats l l relaxed_truth_set).tp = l.length ∧
    (compute_stats l l relaxed_truth_set).fp = 0 ∧
    (compute_stats l l relaxed_truth_set).fn = 0 := by
  have h := main_loop_identical relaxed_truth_set l Counters.init hall
  simp only [compute_stats, h]
  simp [fn_cleanup, fp_cleanup, Counters.init]

/-- Witness for C7: a single unfiltered SNV call matching itself. -/
theorem spec_C7_witness :
    (compute_stats [Variant.mk 7 "A" "G" false] [Variant.mk 7 "A" "G" false]
       []).tp = [Variant.mk 7 "A" "G" false].length ∧
    (compute_stats [Variant.mk 7 "A" "G" false] [Variant.mk 7 "A" "G" false]
       []).fp = 0 ∧
    (compute_stats [Variant.mk 7 "A" "G" false] [Variant.mk 7 "A" "G" false]
       []).fn = 0 :=
  spec_C7 [Variant.mk 7 "A" "G" false] [] (by simp) (by decide)

/-- C8: each non-header data record yields one `Variant` per
comma-separated ALT allele (in order), all sharing `ref_pos` = native
position minus 2 and the record's reference allele, with `filtered` true
iff the filter field is not the literal `"PASS"`. -/
theorem spec_C8 (r : VcfRecord) :
    (load_vcf_record r).length = (py_split r.alt_bases_field ',').length ∧
    (load_vcf_record r).map Variant.alt_allele = py_split r.alt_bases_field ',' ∧
    ∀ v ∈ load_vcf_record r,
      v.ref_pos = r.pos - 2 ∧ v.ref_allele = r.ref_base ∧
      (v.filtered = true ↔ r.filter_status ≠ "PASS") := by
  refine ⟨by simp [load_vcf_record], ?_, ?_⟩
  · simp only [load_vcf_record, List.map_map]
    have hcomp : (Variant.alt_allele ∘ fun alt_base =>
        ({ ref_pos := r.pos - 2, ref_allele := r.ref_base, alt_allele := alt_base,
           filtered := r.filter_status != "PASS" } : Variant)) = id := by
      funext a
      rfl
    rw [hcomp, List.map_id]
  · intro v hv
    simp only [load_vcf_record, List.mem_map] at hv
    obtain ⟨a, ha, rfl⟩ := hv
    exact ⟨rfl, rfl, by simp [bne_iff_ne]⟩

/-- Witness for C8: the record `(pos 5, REF "A", ALT "G,T", filter q10)`
yields the variant `(3, "A", "G", filtered)` among its two variants. -/
theorem spec_C8_witness :
    Variant.mk 3 "A" "G" true ∈ load_vcf_record (VcfRecord.mk 5 "A" "G,T" "q10") ∧
    ((Variant.mk 3 "A" "G" true).ref_pos = (VcfRecord.mk 5 "A" "G,T" "q10").pos - 2 ∧
     (Variant.mk 3 "A" "G" true).ref_allele = (VcfRecord.mk 5 "A" "G,T" "q10").ref_base ∧
     ((Variant.mk 3 "A" "G" true).filtered = true ↔
       (VcfRecord.mk 5 "A" "G,T" "q10").filter_status ≠ "PASS")) :=
  ⟨by decide, (spec_C8 (VcfRecord.mk 5 "A" "G,T" "q10")).2.2 _ (by decide)⟩

/-- C9: the final counters always satisfy `fn_in_sv ≤ fn`, and the main
loop preserves that inequality from any counter state, since `fn_in_sv`
is only ever incremented together with `fn`. -/
theorem spec_C9 :
    (∀ call_set truth_set relaxed_truth_set : List Variant,
      (compute_stats call_set truth_set relaxed_truth_set).fn_in_sv ≤
        (compute_stats call_set truth_set relaxed_truth_set).fn) ∧
    (∀ rel cs ts : List Variant, ∀ c : Counters, c.fn_in_sv ≤ c.fn →
      (main_loop rel cs ts c).2.2.fn_in_sv ≤ (main_loop rel cs ts c).2.2.fn) := by
  constructor
  · intro cs ts rel
    have h1 := main_loop_fn_in_sv_le rel cs ts Counters.init (by simp [Counters.init])
    simp only [compute_stats, fn_cleanup_fn_in_sv, fp_cleanup_fn_in_sv,
      fn_cleanup_fn, fp_cleanup_fn]
    omega
  · exact fun rel cs ts c h => main_loop_fn_in_sv_le rel cs ts c h

/-- Witness for C9: the preserved inequality instantiated on empty lists
from the all-zero counters. -/
theorem spec_C9_witness :
    Counters.init.fn_in_sv ≤ Counters.init.fn ∧
    (main_loop [] [] [] Counters.init).2.2.fn_in_sv ≤
      (main_loop [] [] [] Counters.init).2.2.fn :=
  ⟨by decide, spec_C9.2 [] [] [] Counters.init (by decide)⟩
